import Mathlib

/-!
Shallow embedding of `QAISignatureAuthHandler.generate_signature` and
`hex_encode_md5_hash` from `src/qingcloud/qai/connection.py`, together with
the standard-library primitives the source calls (`hashlib.md5`,
`hashlib.sha256`, `hmac`, `base64.b64encode`, `urllib.parse.quote_plus`,
`str.encode("utf-8")`), implemented per their specifications
(RFC 1321, FIPS 180-4, RFC 2104, RFC 4648, WHATWG form-urlencoding).

A Python `dict` is modelled as an association list in iteration order with
unique keys; mutation of the caller's dict is made explicit by returning the
final dict state alongside the output string.
-/

/-- A Python value as it can appear in the `params` dict handed to
`generate_signature`: a string-like scalar (carrying its `str()` rendering),
a boolean, a list of strings, or any other object (carrying its `str()`
rendering, which is what an f-string interpolates). -/
inductive PValue where
  | scalar (s : String)
  | boolFlag (b : Bool)
  | list (xs : List String)
  | other (s : String)
deriving DecidableEq

/-- A Python dict `str -> value`, as an association list in iteration order. -/
abbrev ParamDict := List (String × PValue)

/-- Python `d[k] = v`: replace the value at the first occurrence of `k`
keeping its position, or append a new binding at the end. -/
def dictSet : ParamDict → String → PValue → ParamDict
  | [], k, v => [(k, v)]
  | (k', v') :: rest, k, v =>
    if k' = k then (k, v) :: rest else (k', v') :: dictSet rest k v

/-- Python `d[k]` (lookup of the first binding of `k`; the code only reads
keys that are present, so the default is never observed). -/
def dictGet (ps : ParamDict) (k : String) : PValue :=
  match ps with
  | [] => PValue.scalar ""
  | (k', v) :: rest => if k' = k then v else dictGet rest k

/-- Python `url.endswith("/")`: the last character is a slash. -/
def endsWithSlash (s : String) : Bool :=
  s.data.getLast? == some '/'

/-- The line `url += "/" if not url.endswith("/") else ""`. -/
def normalize_path (url : String) : String :=
  if endsWithSlash url then url else url ++ "/"

/-- Python string comparison `a <= b`: code-point lexicographic order on the
underlying character lists. -/
def strLeList : List Char → List Char → Bool
  | [], _ => true
  | _ :: _, [] => false
  | a :: as, b :: bs =>
    if a.toNat < b.toNat then true
    else if b.toNat < a.toNat then false
    else strLeList as bs

/-- Python `a <= b` on strings. -/
def strLe (a b : String) : Bool :=
  strLeList a.data b.data

/-- The ordering relation of Python `sorted` on strings, as a `Prop`. -/
def SLe (a b : String) : Prop :=
  strLe a b = true

/-- Insertion of one element into an ascending list, keeping it ascending. -/
def pyInsert (x : String) : List String → List String
  | [] => [x]
  | y :: ys => if strLe x y then x :: y :: ys else y :: pyInsert x ys

/-- Python `sorted` on strings: ascending code-point lexicographic order
(insertion sort; equal strings are identical, so the result agrees with any
stable ascending sort). -/
def pySorted : List String → List String
  | [] => []
  | x :: xs => pyInsert x (pySorted xs)

/-- The first loop of `generate_signature` applied to one value: a list is
replaced by its sorted copy, every other value is stored unchanged. -/
def normVal : PValue → PValue
  | PValue.list xs => PValue.list (pySorted xs)
  | v => v

/-- The `sorted_param` OrderedDict: keys in sorted order, each bound to its
(possibly list-sorted) value. -/
def sorted_param (ps : ParamDict) : ParamDict :=
  (pySorted (ps.map Prod.fst)).map (fun k => (k, normVal (dictGet ps k)))

/-- The body of the second loop: a list value contributes one
`f"{key}={value}"` part per element, any other value a single
`f"{key}={values}"` part (an f-string interpolates the `str()` rendering:
`True`/`False` for booleans). -/
def pairParts : String × PValue → List String
  | (k, PValue.list xs) => xs.map (fun v => k ++ "=" ++ v)
  | (k, PValue.scalar s) => [k ++ "=" ++ s]
  | (k, PValue.boolFlag b) => [k ++ "=" ++ (if b then "True" else "False")]
  | (k, PValue.other s) => [k ++ "=" ++ s]

/-- The canonical parameter string: `'&'.join(url_param_parts)` over the
parts emitted from `sorted_param`. -/
def url_param_of (ps : ParamDict) : String :=
  String.intercalate "&" ((sorted_param ps).flatMap pairParts)

/-- Python `str.encode("utf-8")` on one character (RFC 3629). -/
def utf8EncodeChar (c : Char) : List Nat :=
  let n := c.toNat
  if n < 0x80 then [n]
  else if n < 0x800 then [0xC0 + n / 0x40, 0x80 + n % 0x40]
  else if n < 0x10000 then
    [0xE0 + n / 0x1000, 0x80 + n / 0x40 % 0x40, 0x80 + n % 0x40]
  else
    [0xF0 + n / 0x40000, 0x80 + n / 0x1000 % 0x40,
     0x80 + n / 0x40 % 0x40, 0x80 + n % 0x40]

/-- Python `str.encode("utf-8")`: the UTF-8 bytes of a string. -/
def utf8Encode (s : String) : List Nat :=
  s.data.flatMap utf8EncodeChar

/-- Rotate a 32-bit word left by `n` bits. -/
def rotl32 (x n : Nat) : Nat :=
  (x * 2 ^ n + x / 2 ^ (32 - n)) % 2 ^ 32

/-- Rotate a 32-bit word right by `n` bits. -/
def rotr32 (x n : Nat) : Nat :=
  (x / 2 ^ n + x % 2 ^ n * 2 ^ (32 - n)) % 2 ^ 32

/-- Split a list into consecutive chunks of `n` elements; the fuel argument
(instantiated with the list length) makes the recursion structural. -/
def chunksOfFuel (n : Nat) : Nat → List Nat → List (List Nat)
  | 0, _ => []
  | _, [] => []
  | fuel + 1, l => l.take n :: chunksOfFuel n fuel (l.drop n)

/-- Split a byte list into chunks of `n` bytes. -/
def chunksOf (n : Nat) (l : List Nat) : List (List Nat) :=
  chunksOfFuel n l.length l

/-- Little-endian bytes of a number, `n` bytes wide. -/
def natToLE : Nat → Nat → List Nat
  | 0, _ => []
  | n + 1, w => w % 256 :: natToLE n (w / 256)

/-- Big-endian bytes of a number, `n` bytes wide. -/
def natToBE (n w : Nat) : List Nat :=
  (natToLE n w).reverse

/-- Group bytes into 32-bit words, little-endian (MD5). -/
def leWords : List Nat → List Nat
  | b0 :: b1 :: b2 :: b3 :: rest =>
    (b0 + 256 * b1 + 65536 * b2 + 16777216 * b3) :: leWords rest
  | _ => []

/-- Group bytes into 32-bit words, big-endian (SHA-256). -/
def beWords : List Nat → List Nat
  | b0 :: b1 :: b2 :: b3 :: rest =>
    (16777216 * b0 + 65536 * b1 + 256 * b2 + b3) :: beWords rest
  | _ => []

/-- Merkle–Damgård padding shared by MD5 and SHA-256: a `0x80` byte, zeros
to 56 mod 64, then the 64-bit bit length (little-endian for MD5,
big-endian for SHA-256). -/
def mdPad (lenBytes : List Nat) (msg : List Nat) : List Nat :=
  msg ++ 0x80 :: List.replicate ((119 - msg.length % 64) % 64) 0 ++ lenBytes

/-- The 64 MD5 round constants `floor(2^32 * abs(sin(i+1)))` (RFC 1321). -/
def md5K : List Nat :=
  [3614090360, 3905402710, 606105819, 3250441966, 4118548399, 1200080426,
   2821735955, 4249261313, 1770035416, 2336552879, 4294925233, 2304563134,
   1804603682, 4254626195, 2792965006, 1236535329, 4129170786, 3225465664,
   643717713, 3921069994, 3593408605, 38016083, 3634488961, 3889429448,
   568446438, 3275163606, 4107603335, 1163531501, 2850285829, 4243563512,
   1735328473, 2368359562, 4294588738, 2272392833, 1839030562, 4259657740,
   2763975236, 1272893353, 4139469664, 3200236656, 681279174, 3936430074,
   3572445317, 76029189, 3654602809, 3873151461, 530742520, 3299628645,
   4096336452, 1126891415, 2878612391, 4237533241, 1700485571, 2399980690,
   4293915773, 2240044497, 1873313359, 4264355552, 2734768916, 1309151649,
   4149444226, 3174756917, 718787259, 3951481745]

/-- The 64 MD5 per-round left-rotation amounts (RFC 1321). -/
def md5S : List Nat :=
  [7, 12, 17, 22, 7, 12, 17, 22, 7, 12, 17, 22, 7, 12, 17, 22,
   5, 9, 14, 20, 5, 9, 14, 20, 5, 9, 14, 20, 5, 9, 14, 20,
   4, 11, 16, 23, 4, 11, 16, 23, 4, 11, 16, 23, 4, 11, 16, 23,
   6, 10, 15, 21, 6, 10, 15, 21, 6, 10, 15, 21, 6, 10, 15, 21]

/-- Bitwise complement of a 32-bit word. -/
def not32 (x : Nat) : Nat :=
  0xFFFFFFFF ^^^ x % 2 ^ 32

/-- The MD5 nonlinear function for round `i` (RFC 1321). -/
def md5F (i b c d : Nat) : Nat :=
  if i < 16 then (b &&& c) ||| (not32 b &&& d)
  else if i < 32 then (d &&& b) ||| (not32 d &&& c)
  else if i < 48 then b ^^^ c ^^^ d
  else c ^^^ (b ||| not32 d)

/-- The MD5 message-word index for round `i` (RFC 1321). -/
def md5G (i : Nat) : Nat :=
  if i < 16 then i
  else if i < 32 then (5 * i + 1) % 16
  else if i < 48 then (3 * i + 5) % 16
  else 7 * i % 16

/-- One MD5 round on the state `(a, b, c, d)` with message words `M`. -/
def md5Round (M : List Nat) (st : Nat × Nat × Nat × Nat) (i : Nat) :
    Nat × Nat × Nat × Nat :=
  let (a, b, c, d) := st
  let f := (md5F i b c d + a + md5K.getD i 0 + M.getD (md5G i) 0) % 2 ^ 32
  (d, (b + rotl32 f (md5S.getD i 0)) % 2 ^ 32, b, c)

/-- Process one 64-byte MD5 chunk. -/
def md5Chunk (st : Nat × Nat × Nat × Nat) (chunk : List Nat) :
    Nat × Nat × Nat × Nat :=
  let M := leWords chunk
  let (a, b, c, d) := (List.range 64).foldl (md5Round M) st
  let (a0, b0, c0, d0) := st
  ((a0 + a) % 2 ^ 32, (b0 + b) % 2 ^ 32, (c0 + c) % 2 ^ 32, (d0 + d) % 2 ^ 32)

/-- MD5 of a byte list: the 16-byte digest (RFC 1321), as computed by
Python's `hashlib.md5`. -/
def md5Bytes (msg : List Nat) : List Nat :=
  let padded := mdPad (natToLE 8 (msg.length * 8 % 2 ^ 64)) msg
  let (a, b, c, d) :=
    (chunksOf 64 padded).foldl md5Chunk
      (0x67452301, 0xefcdab89, 0x98badcfe, 0x10325476)
  natToLE 4 a ++ natToLE 4 b ++ natToLE 4 c ++ natToLE 4 d

/-- Lowercase hex digit. -/
def hexDigit (n : Nat) : Char :=
  "0123456789abcdef".data.getD n '0'

/-- Lowercase hex string of a byte list (Python's `hexdigest`). -/
def bytesToHex (bs : List Nat) : String :=
  ⟨bs.flatMap (fun b => [hexDigit (b / 16), hexDigit (b % 16)])⟩

/-- The helper `hex_encode_md5_hash` of `connection.py`: UTF-8 encode the
string (the `if not data` branch encodes the empty string, which yields the
same empty byte string) and return the hex MD5 digest. -/
def hex_encode_md5_hash (data : String) : String :=
  bytesToHex (md5Bytes (utf8Encode data))

/-- The 64 SHA-256 round constants (FIPS 180-4). -/
def sha256K : List Nat :=
  [1116352408, 1899447441, 3049323471, 3921009573, 961987163, 1508970993,
   2453635748, 2870763221, 3624381080, 310598401, 607225278, 1426881987,
   1925078388, 2162078206, 2614888103, 3248222580, 3835390401, 4022224774,
   264347078, 604807628, 770255983, 1249150122, 1555081692, 1996064986,
   2554220882, 2821834349, 2952996808, 3210313671, 3336571891, 3584528711,
   113926993, 338241895, 666307205, 773529912, 1294757372, 1396182291,
   1695183700, 1986661051, 2177026350, 2456956037, 2730485921, 2820302411,
   3259730800, 3345764771, 3516065817, 3600352804, 4094571909, 275423344,
   430227734, 506948616, 659060556, 883997877, 958139571, 1322822218,
   1537002063, 1747873779, 1955562222, 2024104815, 2227730452, 2361852424,
   2428436474, 2756734187, 3204031479, 3329325298]

/-- SHA-256 small sigma 0. -/
def ssig0 (x : Nat) : Nat :=
  rotr32 x 7 ^^^ rotr32 x 18 ^^^ x / 2 ^ 3

/-- SHA-256 small sigma 1. -/
def ssig1 (x : Nat) : Nat :=
  rotr32 x 17 ^^^ rotr32 x 19 ^^^ x / 2 ^ 10

/-- SHA-256 big sigma 0. -/
def bsig0 (x : Nat) : Nat :=
  rotr32 x 2 ^^^ rotr32 x 13 ^^^ rotr32 x 22

/-- SHA-256 big sigma 1. -/
def bsig1 (x : Nat) : Nat :=
  rotr32 x 6 ^^^ rotr32 x 11 ^^^ rotr32 x 25

/-- Extend the 16 message words to 64 with the SHA-256 schedule; the first
argument counts the words still to append. -/
def shaExtend : Nat → List Nat → List Nat
  | 0, w => w
  | n + 1, w =>
    let i := w.length
    let nw := (w.getD (i - 16) 0 + ssig0 (w.getD (i - 15) 0) +
               w.getD (i - 7) 0 + ssig1 (w.getD (i - 2) 0)) % 2 ^ 32
    shaExtend n (w ++ [nw])

/-- SHA-256 eight-word working state. -/
abbrev Sha256State := Nat × Nat × Nat × Nat × Nat × Nat × Nat × Nat

/-- One SHA-256 compression round with constant `k` and schedule word `w`. -/
def sha256Round (st : Sha256State) (kw : Nat × Nat) : Sha256State :=
  let (a, b, c, d, e, f, g, h) := st
  let (k, w) := kw
  let t1 := (h + bsig1 e + ((e &&& f) ^^^ (not32 e &&& g)) + k + w) % 2 ^ 32
  let t2 := (bsig0 a + ((a &&& b) ^^^ (a &&& c) ^^^ (b &&& c))) % 2 ^ 32
  ((t1 + t2) % 2 ^ 32, a, b, c, (d + t1) % 2 ^ 32, e, f, g)

/-- Process one 64-byte SHA-256 chunk. -/
def sha256Chunk (st : Sha256State) (chunk : List Nat) : Sha256State :=
  let w := shaExtend 48 (beWords chunk)
  let (a, b, c, d, e, f, g, h) := (sha256K.zip w).foldl sha256Round st
  let (a0, b0, c0, d0, e0, f0, g0, h0) := st
  ((a0 + a) % 2 ^ 32, (b0 + b) % 2 ^ 32, (c0 + c) % 2 ^ 32, (d0 + d) % 2 ^ 32,
   (e0 + e) % 2 ^ 32, (f0 + f) % 2 ^ 32, (g0 + g) % 2 ^ 32, (h0 + h) % 2 ^ 32)

/-- SHA-256 of a byte list: the 32-byte digest (FIPS 180-4), as computed by
Python's `hashlib.sha256`. -/
def sha256Bytes (msg : List Nat) : List Nat :=
  let padded := mdPad (natToBE 8 (msg.length * 8 % 2 ^ 64)) msg
  let (a, b, c, d, e, f, g, h) :=
    (chunksOf 64 padded).foldl sha256Chunk
      (0x6a09e667, 0xbb67ae85, 0x3c6ef372, 0xa54ff53a,
       0x510e527f, 0x9b05688c, 0x1f83d9ab, 0x5be0cd19)
  natToBE 4 a ++ natToBE 4 b ++ natToBE 4 c ++ natToBE 4 d ++
  natToBE 4 e ++ natToBE 4 f ++ natToBE 4 g ++ natToBE 4 h

/-- Python `hmac.new(key, digestmod=sha256)` followed by `update(msg)` and
`digest()` (RFC 2104 with a 64-byte block). -/
def hmacSha256 (key msg : List Nat) : List Nat :=
  let k0 := if 64 < key.length then sha256Bytes key else key
  let k := k0 ++ List.replicate (64 - k0.length) 0
  sha256Bytes (k.map (fun b => b ^^^ 0x5C) ++
    sha256Bytes (k.map (fun b => b ^^^ 0x36) ++ msg))

/-- The base64 alphabet (RFC 4648). -/
def b64Char (n : Nat) : Char :=
  "ABCDEFGHIJKLMNOPQRSTUVWXYZabcdefghijklmnopqrstuvwxyz0123456789+/".data.getD
    n '='

/-- Encode one group of at most three bytes into four base64 characters. -/
def b64Group : List Nat → List Char
  | [a] => [b64Char (a / 4), b64Char (a % 4 * 16), '=', '=']
  | [a, b] => [b64Char (a / 4), b64Char (a % 4 * 16 + b / 16),
               b64Char (b % 16 * 4), '=']
  | a :: b :: c :: _ => [b64Char (a / 4), b64Char (a % 4 * 16 + b / 16),
                         b64Char (b % 16 * 4 + c / 64), b64Char (c % 64)]
  | [] => []

/-- Python `base64.b64encode` (as a string; the subsequent `.strip()` in the
source is the identity because standard base64 output contains no
whitespace). -/
def base64Encode (bs : List Nat) : String :=
  ⟨(chunksOf 3 bs).flatMap b64Group⟩

/-- Characters `urllib.parse.quote` never escapes: ASCII letters, digits,
and `_.-~`. -/
def isQuoteSafe (c : Char) : Bool :=
  ('A' ≤ c && c ≤ 'Z') || ('a' ≤ c && c ≤ 'z') || ('0' ≤ c && c ≤ '9') ||
  c == '_' || c == '.' || c == '-' || c == '~'

/-- Uppercase hex digit. -/
def hexDigitU (n : Nat) : Char :=
  "0123456789ABCDEF".data.getD n '0'

/-- Python `urllib.parse.quote_plus` on one character: space becomes `+`,
safe characters pass through, everything else is percent-encoded per UTF-8
byte with uppercase hex. -/
def quotePlusChar (c : Char) : List Char :=
  if c == ' ' then ['+']
  else if isQuoteSafe c then [c]
  else (utf8EncodeChar c).flatMap (fun b => ['%', hexDigitU (b / 16), hexDigitU (b % 16)])

/-- Python `urllib.parse.quote_plus` (form-urlencoding). -/
def quotePlus (s : String) : String :=
  ⟨s.data.flatMap quotePlusChar⟩

/-- The string-to-sign of `generate_signature`:
`method + "\n" + url + "\n" + url_param + "\n" + hex_encode_md5_hash("")`. -/
def string_to_sign_of (method url urlParam : String) : String :=
  method ++ "\n" ++ url ++ "\n" ++ urlParam ++ "\n" ++ hex_encode_md5_hash ""

/-- `QAISignatureAuthHandler.generate_signature`. The first component is the
returned query fragment; the second is the state of the caller's `params`
dict after the call (the source assigns `params["access_key_id"] = ak` in
place, so the dict the caller passed is mutated into this state). -/
def generate_signature (method url ak sk : String) (params : ParamDict) :
    String × ParamDict :=
  let url := normalize_path url
  let params := dictSet params "access_key_id" (PValue.scalar ak)
  let urlParam := url_param_of params
  let sts := string_to_sign_of method url urlParam
  let signature := quotePlus (base64Encode (hmacSha256 (utf8Encode sk) (utf8Encode sts)))
  (urlParam ++ "&signature=" ++ signature, params)

/-! ### Helper lemmas about the dict model and Python `sorted` -/

theorem dictGet_dictSet_self (ps : ParamDict) (k : String) (v : PValue) :
    dictGet (dictSet ps k v) k = v := by
  induction ps with
  | nil => simp [dictSet, dictGet]
  | cons e rest ih =>
    obtain ⟨k', v'⟩ := e
    by_cases h : k' = k
    · simp [dictSet, h, dictGet]
    · simp [dictSet, h, dictGet, ih]

theorem dictGet_dictSet_ne (ps : ParamDict) (k k₀ : String) (v : PValue)
    (h : k ≠ k₀) : dictGet (dictSet ps k₀ v) k = dictGet ps k := by
  induction ps with
  | nil => simp [dictSet, dictGet, Ne.symm h]
  | cons e rest ih =>
    obtain ⟨k', v'⟩ := e
    by_cases h' : k' = k₀
    · subst h'
      simp [dictSet, dictGet, Ne.symm h]
    · by_cases h'' : k' = k
      · simp [dictSet, h, h', dictGet, h'']
      · simp [dictSet, h, h', dictGet, h'', ih]

theorem dictSet_keys (ps : ParamDict) (k : String) (v : PValue) :
    (dictSet ps k v).map Prod.fst =
      if k ∈ ps.map Prod.fst then ps.map Prod.fst else ps.map Prod.fst ++ [k] := by
  induction ps with
  | nil => simp [dictSet]
  | cons e rest ih =>
    obtain ⟨k', v'⟩ := e
    by_cases h : k' = k
    · simp [dictSet, h]
    · by_cases hm : k ∈ rest.map Prod.fst
      · simp [dictSet, h, ih, hm, Ne.symm h]
      · simp [dictSet, h, ih, hm, Ne.symm h]

theorem dictSet_append_of_not_mem (ps : ParamDict) (k : String) (v : PValue)
    (h : k ∉ ps.map Prod.fst) : dictSet ps k v = ps ++ [(k, v)] := by
  induction ps with
  | nil => simp [dictSet]
  | cons e rest ih =>
    obtain ⟨k', v'⟩ := e
    simp only [List.map_cons, List.mem_cons, not_or] at h
    simp [dictSet, Ne.symm h.1, ih h.2]

theorem dictSet_overwrite_in_place (pre post : ParamDict) (k : String) (v w : PValue)
    (h : k ∉ pre.map Prod.fst) :
    dictSet (pre ++ (k, v) :: post) k w = pre ++ (k, w) :: post := by
  induction pre with
  | nil => simp [dictSet]
  | cons e rest ih =>
    obtain ⟨k', v'⟩ := e
    simp only [List.map_cons, List.mem_cons, not_or] at h
    simp [dictSet, Ne.symm h.1, ih h.2]

theorem strLeList_total (as bs : List Char) :
    strLeList as bs = true ∨ strLeList bs as = true := by
  induction as generalizing bs with
  | nil => exact Or.inl rfl
  | cons a as ih =>
    match bs with
    | [] => exact Or.inr rfl
    | b :: bs =>
      rcases Nat.lt_trichotomy a.toNat b.toNat with h | h | h
      · left
        simp [strLeList, h]
      · have h₁ : ¬a.toNat < b.toNat := by omega
        have h₂ : ¬b.toNat < a.toNat := by omega
        rcases ih bs with hr | hr
        · left
          simp [strLeList, h₁, h₂, hr]
        · right
          simp [strLeList, h₁, h₂, hr]
      · right
        simp [strLeList, h]

theorem strLeList_trans (as : List Char) : ∀ bs cs, strLeList as bs = true →
    strLeList bs cs = true → strLeList as cs = true := by
  induction as with
  | nil => intro bs cs _ _; rfl
  | cons a as ih =>
    intro bs cs h₁ h₂
    match bs, cs with
    | [], _ => simp [strLeList] at h₁
    | b :: bs, [] => simp [strLeList] at h₂
    | b :: bs, c :: cs =>
      simp only [strLeList] at h₁ h₂ ⊢
      rcases Nat.lt_trichotomy a.toNat b.toNat with hab | hab | hab
      · rcases Nat.lt_trichotomy b.toNat c.toNat with hbc | hbc | hbc
        · simp [show a.toNat < c.toNat by omega]
        · simp [show a.toNat < c.toNat by omega]
        · simp [show ¬b.toNat < c.toNat by omega, hbc] at h₂
      · rcases Nat.lt_trichotomy b.toNat c.toNat with hbc | hbc | hbc
        · simp [show a.toNat < c.toNat by omega]
        · simp only [show ¬a.toNat < b.toNat by omega, show ¬b.toNat < a.toNat by omega,
            if_false, ite_false] at h₁
          simp only [show ¬b.toNat < c.toNat by omega, show ¬c.toNat < b.toNat by omega,
            if_false, ite_false] at h₂
          simp only [show ¬a.toNat < c.toNat by omega, show ¬c.toNat < a.toNat by omega,
            if_false, ite_false]
          exact ih bs cs h₁ h₂
        · simp [show ¬b.toNat < c.toNat by omega, hbc] at h₂
      · simp [show ¬a.toNat < b.toNat by omega, hab] at h₁

theorem char_eq_of_toNat_eq {a b : Char} (h : a.toNat = b.toNat) : a = b :=
  Char.ext (UInt32.ext h)

theorem strLeList_antisymm (as : List Char) : ∀ bs, strLeList as bs = true →
    strLeList bs as = true → as = bs := by
  induction as with
  | nil =>
    intro bs h₁ h₂
    match bs with
    | [] => rfl
    | b :: bs => simp [strLeList] at h₂
  | cons a as ih =>
    intro bs h₁ h₂
    match bs with
    | [] => simp [strLeList] at h₁
    | b :: bs =>
      simp only [strLeList] at h₁ h₂
      by_cases hab : a.toNat < b.toNat
      · simp [hab, show ¬b.toNat < a.toNat by omega] at h₂
      · by_cases hba : b.toNat < a.toNat
        · simp [hab, hba] at h₁
        · have hc : a = b := char_eq_of_toNat_eq (by omega)
          simp only [hab, hba, if_neg, if_false, ite_false] at h₁ h₂
          simp_all [ih bs h₁ h₂]

theorem strLe_trans {a b c : String} (h₁ : SLe a b) (h₂ : SLe b c) : SLe a c :=
  strLeList_trans a.data b.data c.data h₁ h₂

theorem strLe_antisymm {a b : String} (h₁ : SLe a b) (h₂ : SLe b a) : a = b := by
  have h := strLeList_antisymm a.data b.data h₁ h₂
  cases a
  cases b
  exact congrArg String.mk h

instance : IsAntisymm String SLe :=
  ⟨fun _ _ h₁ h₂ => strLe_antisymm h₁ h₂⟩

theorem pyInsert_perm (x : String) (l : List String) :
    List.Perm (pyInsert x l) (x :: l) := by
  induction l with
  | nil => exact List.Perm.refl _
  | cons y ys ih =>
    by_cases h : strLe x y
    · simp [pyInsert, h]
    · simp only [pyInsert, h, if_false, ite_false, Bool.false_eq_true]
      exact (ih.cons y).trans (List.Perm.swap x y ys)

theorem pySorted_perm (xs : List String) : List.Perm (pySorted xs) xs := by
  induction xs with
  | nil => exact List.Perm.refl _
  | cons x xs ih => exact (pyInsert_perm x (pySorted xs)).trans (ih.cons x)

theorem sorted_pyInsert (x : String) {l : List String} (h : l.Sorted SLe) :
    (pyInsert x l).Sorted SLe := by
  induction l with
  | nil => simp [pyInsert]
  | cons y ys ih =>
    rw [List.sorted_cons] at h
    by_cases hxy : strLe x y = true
    · simp only [pyInsert, hxy, if_true]
      rw [List.sorted_cons]
      refine ⟨fun b hb => ?_, List.sorted_cons.mpr h⟩
      rcases List.mem_cons.mp hb with rfl | hb
      · exact hxy
      · exact strLe_trans hxy (h.1 b hb)
    · have hyx : SLe y x := (strLeList_total x.data y.data).resolve_left hxy
      simp only [pyInsert, hxy, if_false, ite_false, Bool.false_eq_true]
      rw [List.sorted_cons]
      refine ⟨fun b hb => ?_, ih h.2⟩
      rcases List.mem_cons.mp ((pyInsert_perm x ys).mem_iff.mp hb) with rfl | hb
      · exact hyx
      · exact h.1 b hb

theorem pySorted_sorted (xs : List String) : (pySorted xs).Sorted SLe := by
  induction xs with
  | nil => simp [pySorted]
  | cons x xs ih => exact sorted_pyInsert x ih

theorem pySorted_eq_of_perm {xs ys : List String} (h : List.Perm xs ys) :
    pySorted xs = pySorted ys :=
  List.eq_of_perm_of_sorted ((pySorted_perm xs).trans (h.trans (pySorted_perm ys).symm))
    (pySorted_sorted xs) (pySorted_sorted ys)

/-- Two parameter values that the signature must not distinguish: equal, or
lists holding the same multiset of elements. -/
def ValueEquiv : PValue → PValue → Prop
  | PValue.list xs, PValue.list ys => xs.Perm ys
  | v, w => v = w

theorem valueEquiv_refl : ∀ v : PValue, ValueEquiv v v
  | PValue.list xs => List.Perm.refl xs
  | PValue.scalar _ => rfl
  | PValue.boolFlag _ => rfl
  | PValue.other _ => rfl

theorem normVal_valueEquiv {v w : PValue} (h : ValueEquiv v w) :
    normVal v = normVal w := by
  cases v with
  | list xs =>
    cases w with
    | list ys => exact congrArg PValue.list (pySorted_eq_of_perm h)
    | scalar s => exact PValue.noConfusion h
    | boolFlag b => exact PValue.noConfusion h
    | other s => exact PValue.noConfusion h
  | scalar s => exact (show PValue.scalar s = w from h) ▸ rfl
  | boolFlag b => exact (show PValue.boolFlag b = w from h) ▸ rfl
  | other s => exact (show PValue.other s = w from h) ▸ rfl

/-- Entry-wise equivalence of two dicts in the same iteration order: equal
keys, values equal up to list-element permutation. -/
def EntryEquiv (e₁ e₂ : String × PValue) : Prop :=
  e₁.1 = e₂.1 ∧ ValueEquiv e₁.2 e₂.2

theorem forall₂_keys_eq {l₁ l₂ : ParamDict} (h : List.Forall₂ EntryEquiv l₁ l₂) :
    l₁.map Prod.fst = l₂.map Prod.fst := by
  induction h with
  | nil => rfl
  | cons he _ ih => simp [he.1, ih]

theorem dictGet_forall₂ {l₁ l₂ : ParamDict} (h : List.Forall₂ EntryEquiv l₁ l₂)
    (k : String) : ValueEquiv (dictGet l₁ k) (dictGet l₂ k) := by
  induction h with
  | nil => exact valueEquiv_refl _
  | cons he ht ih =>
    rename_i e₁ e₂ t₁ t₂
    obtain ⟨k₁, v₁⟩ := e₁
    obtain ⟨k₂, v₂⟩ := e₂
    obtain ⟨hk, hv⟩ := he
    simp only at hk
    subst hk
    by_cases hkk : k₁ = k
    · simp [dictGet, hkk, hv]
    · simp [dictGet, hkk, ih]

theorem dictGet_perm {l₁ l₂ : ParamDict} (h : List.Perm l₁ l₂)
    (nd : (l₁.map Prod.fst).Nodup) (k : String) : dictGet l₁ k = dictGet l₂ k := by
  induction h with
  | nil => rfl
  | cons x _ ih =>
    obtain ⟨k₁, v₁⟩ := x
    simp only [List.map_cons, List.nodup_cons] at nd
    by_cases hk : k₁ = k
    · simp [dictGet, hk]
    · simp [dictGet, hk, ih nd.2]
  | swap x y l =>
    obtain ⟨k₁, v₁⟩ := x
    obtain ⟨k₂, v₂⟩ := y
    simp only [List.map_cons, List.nodup_cons, List.mem_cons, not_or] at nd
    by_cases h₂ : k₂ = k
    · subst h₂
      simp [dictGet, Ne.symm nd.1.1]
    · by_cases h₁ : k₁ = k
      · simp [dictGet, h₁, h₂]
      · simp [dictGet, h₁, h₂]
  | trans h₁ h₂ ih₁ ih₂ =>
    exact (ih₁ nd).trans (ih₂ ((h₁.map Prod.fst).nodup nd))

theorem sorted_param_keys (ps : ParamDict) :
    (sorted_param ps).map Prod.fst = pySorted (ps.map Prod.fst) := by
  unfold sorted_param
  rw [List.map_map]
  exact List.map_id _

theorem sorted_param_congr {ps₁ ps₂ : ParamDict}
    (hkeys : List.Perm (ps₁.map Prod.fst) (ps₂.map Prod.fst))
    (hget : ∀ k, k ∈ ps₁.map Prod.fst →
      normVal (dictGet ps₁ k) = normVal (dictGet ps₂ k)) :
    sorted_param ps₁ = sorted_param ps₂ := by
  unfold sorted_param
  rw [pySorted_eq_of_perm hkeys]
  apply List.map_congr_left
  intro k hk
  have hmem : k ∈ ps₁.map Prod.fst :=
    hkeys.mem_iff.mpr ((pySorted_perm _).mem_iff.mp hk)
  rw [hget k hmem]

theorem sorted_param_dictSet_congr {ps₁ psm ps₂ : ParamDict} (K : String) (V : PValue)
    (hperm : List.Perm ps₁ psm) (hvals : List.Forall₂ EntryEquiv psm ps₂)
    (hnd : (ps₁.map Prod.fst).Nodup) :
    sorted_param (dictSet ps₁ K V) = sorted_param (dictSet ps₂ K V) := by
  have hkm : List.Perm (ps₁.map Prod.fst) (ps₂.map Prod.fst) :=
    forall₂_keys_eq hvals ▸ hperm.map Prod.fst
  have hk : List.Perm ((dictSet ps₁ K V).map Prod.fst)
      ((dictSet ps₂ K V).map Prod.fst) := by
    rw [dictSet_keys, dictSet_keys]
    by_cases hKm : K ∈ ps₁.map Prod.fst
    · rw [if_pos hKm, if_pos (hkm.mem_iff.mp hKm)]
      exact hkm
    · rw [if_neg hKm, if_neg (fun hc => hKm (hkm.mem_iff.mpr hc))]
      exact hkm.append (List.Perm.refl _)
  apply sorted_param_congr hk
  intro k hkmem
  by_cases hK : k = K
  · subst hK
    rw [dictGet_dictSet_self, dictGet_dictSet_self]
  · rw [dictGet_dictSet_ne _ _ _ _ hK, dictGet_dictSet_ne _ _ _ _ hK]
    have hval := dictGet_forall₂ hvals k
    rw [← dictGet_perm hperm hnd k] at hval
    exact normVal_valueEquiv hval

theorem gen_fst_congr (m p ak sk : String) {ps₁ ps₂ : ParamDict}
    (h : sorted_param (dictSet ps₁ "access_key_id" (PValue.scalar ak)) =
         sorted_param (dictSet ps₂ "access_key_id" (PValue.scalar ak))) :
    (generate_signature m p ak sk ps₁).1 = (generate_signature m p ak sk ps₂).1 := by
  simp only [generate_signature, url_param_of, h]

theorem dictSet_dictSet_same (ps : ParamDict) (k : String) (v w : PValue) :
    dictSet (dictSet ps k v) k w = dictSet ps k w := by
  induction ps with
  | nil => simp [dictSet]
  | cons e rest ih =>
    obtain ⟨k', v'⟩ := e
    by_cases h : k' = k
    · simp [dictSet, h]
    · simp [dictSet, h, ih]

/-! ### Claim theorems -/

set_option maxRecDepth 8000 in
/-- Claim C1: on Scenario A inputs (`GET`, `/iam/users/`, keys `AKID1` /
`SECRET1`, params `{"zone": "pek3a"}`), `generate_signature` builds the
canonical param string `access_key_id=AKID1&zone=pek3a`, signs the
string-to-sign whose last line is the hex MD5 of the empty byte string with
HMAC-SHA256 keyed by the UTF-8 bytes of the secret key, and returns the
param string followed by `&signature=` plus the `quote_plus`-escaped base64
of the MAC. -/
theorem scenario_a_signature :
    url_param_of (dictSet [("zone", PValue.scalar "pek3a")] "access_key_id"
      (PValue.scalar "AKID1")) = "access_key_id=AKID1&zone=pek3a" ∧
    hex_encode_md5_hash "" = "d41d8cd98f00b204e9800998ecf8427e" ∧
    string_to_sign_of "GET" "/iam/users/" "access_key_id=AKID1&zone=pek3a" =
      "GET\n/iam/users/\naccess_key_id=AKID1&zone=pek3a\nd41d8cd98f00b204e9800998ecf8427e" ∧
    (generate_signature "GET" "/iam/users/" "AKID1" "SECRET1"
        [("zone", PValue.scalar "pek3a")]).1 =
      "access_key_id=AKID1&zone=pek3a&signature=" ++
        quotePlus (base64Encode (hmacSha256 (utf8Encode "SECRET1") (utf8Encode
          "GET\n/iam/users/\naccess_key_id=AKID1&zone=pek3a\nd41d8cd98f00b204e9800998ecf8427e"))) :=
  ⟨by decide, by decide, by decide, by decide⟩

/-- Claim C2: canonicalization emits all keys ascending; a List value is
emitted with its elements sorted, one pair per element (Scenario B); a
Scalar or BoolFlag value is a single pair; an empty List contributes zero
pairs; an empty parameter set yields after identity injection exactly the
single `access_key_id` pair. -/
theorem canonicalization_order :
    (∀ ps : ParamDict, List.Sorted SLe ((sorted_param ps).map Prod.fst)) ∧
    (∀ xs : List String, normVal (PValue.list xs) = PValue.list (pySorted xs) ∧
      List.Sorted SLe (pySorted xs)) ∧
    (url_param_of (dictSet [("status", PValue.list ["b", "a"])] "access_key_id"
        (PValue.scalar "AKID1")) = "access_key_id=AKID1&status=a&status=b") ∧
    (∀ k s, pairParts (k, PValue.scalar s) = [k ++ "=" ++ s]) ∧
    (∀ k b, pairParts (k, PValue.boolFlag b) =
      [k ++ "=" ++ (if b then "True" else "False")]) ∧
    (∀ k, pairParts (k, PValue.list []) = []) ∧
    (∀ ak, url_param_of (dictSet [] "access_key_id" (PValue.scalar ak)) =
      "access_key_id=" ++ ak) := by
  refine ⟨fun ps => ?_, fun xs => ⟨rfl, pySorted_sorted xs⟩, by decide,
    fun k s => rfl, fun k b => rfl, fun k => rfl, fun ak => rfl⟩
  rw [sorted_param_keys]
  exact pySorted_sorted _

set_option maxRecDepth 8000 in
/-- Claim C3 counterexample: with a parameter value that is a nested mapping
(str rendering `{'b': 1}`), `generate_signature` does not fail: it emits the
value's `str()` rendering into the canonical string and returns a complete
signed output. -/
theorem unsupported_value_output_cx :
    (generate_signature "GET" "/x/" "AK" "SK"
        [("a", PValue.other "\x7b\x27b\x27: 1\x7d")]).1 =
      "a=\x7b\x27b\x27: 1\x7d&access_key_id=AK&signature=hNCibq7T6nIbNw%2FGo5hisbF42f08jQD8BxiMri2uVtY%3D" :=
  by decide

/-- Claim C3 (amended): a value outside the three supported kinds is
silently stringified — it contributes a single `key=str(value)` pair and
flows through canonicalization; no `InvalidParameterKind` failure exists. -/
theorem unsupported_value_stringified (k s ak : String) :
    pairParts (k, PValue.other s) = [k ++ "=" ++ s] ∧
    (sorted_param (dictSet [("zzz", PValue.other s)] "access_key_id"
        (PValue.scalar ak))).flatMap pairParts =
      ["access_key_id" ++ "=" ++ ak, "zzz" ++ "=" ++ s] :=
  ⟨rfl, rfl⟩

/-- Claim C4 counterexample: `generate_signature` mutates the caller's
params dict — after a call with an empty dict, the caller's dict is no
longer empty. -/
theorem params_mutated_cx :
    (generate_signature "GET" "/x/" "AK" "SK" []).2 ≠ [] := by decide

/-- Claim C4 (amended): `generate_signature` mutates the caller's dict by
the in-place assignment `params["access_key_id"] = ak` and in no other way:
for every parameter set the final dict is the input with `access_key_id`
set to `ak`; when the key was absent, the original bindings are kept
(lists inside unchanged) and the new binding is appended; when the key was
present, its binding is overwritten in place and every other binding,
before and after it, is left untouched. -/
theorem params_mutation_is_injection :
    (∀ m p ak sk : String, ∀ ps : ParamDict,
      (generate_signature m p ak sk ps).2 =
        dictSet ps "access_key_id" (PValue.scalar ak)) ∧
    (∀ m p ak sk : String, ∀ ps : ParamDict,
      "access_key_id" ∉ ps.map Prod.fst →
      (generate_signature m p ak sk ps).2 =
        ps ++ [("access_key_id", PValue.scalar ak)]) ∧
    (∀ m p ak sk : String, ∀ pre : ParamDict, ∀ v : PValue, ∀ post : ParamDict,
      "access_key_id" ∉ pre.map Prod.fst →
      (generate_signature m p ak sk (pre ++ ("access_key_id", v) :: post)).2 =
        pre ++ ("access_key_id", PValue.scalar ak) :: post) := by
  refine ⟨fun m p ak sk ps => rfl, fun m p ak sk ps h => ?_,
    fun m p ak sk pre v post h => ?_⟩
  · show dictSet ps "access_key_id" (PValue.scalar ak) = _
    exact dictSet_append_of_not_mem ps _ _ h
  · show dictSet (pre ++ ("access_key_id", v) :: post) "access_key_id"
      (PValue.scalar ak) = _
    exact dictSet_overwrite_in_place pre post _ v _ h

/-- Witness for the amended C4 at concrete inputs: one call whose dict lacks
`access_key_id` (the binding is appended) and one whose dict binds it
between two other entries (it is overwritten in place, the surrounding
bindings unchanged). -/
theorem params_mutation_is_injection_witness :
    ("access_key_id" ∉ ([("zone", PValue.scalar "pek3a")] : ParamDict).map Prod.fst ∧
      (generate_signature "GET" "/x/" "AK" "SK" [("zone", PValue.scalar "pek3a")]).2 =
        [("zone", PValue.scalar "pek3a")] ++ [("access_key_id", PValue.scalar "AK")]) ∧
    ("access_key_id" ∉ ([("zone", PValue.scalar "pek3a")] : ParamDict).map Prod.fst ∧
      (generate_signature "GET" "/x/" "AK" "SK"
          ([("zone", PValue.scalar "pek3a")] ++ ("access_key_id", PValue.scalar "OLD") ::
            [("status", PValue.list ["b", "a"])])).2 =
        [("zone", PValue.scalar "pek3a")] ++ ("access_key_id", PValue.scalar "AK") ::
          [("status", PValue.list ["b", "a"])]) :=
  ⟨⟨by decide, params_mutation_is_injection.2.1 "GET" "/x/" "AK" "SK" _ (by decide)⟩,
    ⟨by decide, params_mutation_is_injection.2.2 "GET" "/x/" "AK" "SK" _ _ _ (by decide)⟩⟩

set_option maxRecDepth 8000 in
/-- Claim C5 counterexample: with both method and path empty,
`generate_signature` does not fail — it returns a complete signed output
(the empty path is normalized to `/`). -/
theorem empty_method_path_output_cx :
    (generate_signature "" "" "AK" "SK" []).1 =
      "access_key_id=AK&signature=z%2FJuSUytvfgvCBM1tTVP36nBTyPTyK9wPrTcnHGS5pA%3D" :=
  by decide

/-- Claim C5 (amended): `generate_signature` performs no emptiness check on
method or path: an empty path is normalized to `/`, an empty method is used
verbatim, and the string-to-sign simply starts with `"\n/\n"`. -/
theorem empty_method_path_no_check (ak sk : String) (ps : ParamDict) :
    generate_signature "" "" ak sk ps = generate_signature "" "/" ak sk ps ∧
    normalize_path "" = "/" ∧
    (∀ u : String, string_to_sign_of "" (normalize_path "") u =
      "\n/\n" ++ u ++ "\n" ++ hex_encode_md5_hash "") :=
  ⟨rfl, rfl, fun _ => rfl⟩

/-- Claim C6: a caller-supplied `access_key_id` value is overwritten with
`ak` before sorting and signing — presetting the key to any value leaves the
whole result unchanged, and the dict after the call binds `access_key_id`
to `ak`. -/
theorem access_key_overwrite (m p ak sk : String) (ps : ParamDict) (v : PValue) :
    generate_signature m p ak sk (dictSet ps "access_key_id" v) =
      generate_signature m p ak sk ps ∧
    dictGet (generate_signature m p ak sk ps).2 "access_key_id" =
      PValue.scalar ak := by
  constructor
  · simp only [generate_signature, dictSet_dictSet_same]
  · show dictGet (dictSet ps "access_key_id" (PValue.scalar ak)) "access_key_id" = _
    exact dictGet_dictSet_self ps _ _

/-- Claim C7: path normalization appends a trailing slash exactly when the
path does not already end with one, is idempotent, and `generate_signature`
on `/a/b` and `/a/b/` (all else equal) produces identical output. -/
theorem path_normalization_idempotent :
    (∀ q : String, endsWithSlash q = false → normalize_path q = q ++ "/") ∧
    (∀ q : String, endsWithSlash q = true → normalize_path q = q) ∧
    (∀ q : String, endsWithSlash (normalize_path q) = true) ∧
    (∀ q : String, normalize_path (normalize_path q) = normalize_path q) ∧
    (∀ m ak sk ps, generate_signature m "/a/b" ak sk ps =
      generate_signature m "/a/b/" ak sk ps) := by
  have hE : ∀ q : String, endsWithSlash (normalize_path q) = true := by
    intro q
    by_cases h : endsWithSlash q = true
    · simp [normalize_path, h]
    · simp only [normalize_path, h, if_false, ite_false, Bool.false_eq_true]
      simp [endsWithSlash]
  refine ⟨fun q h => by simp [normalize_path, h], fun q h => by simp [normalize_path, h],
    hE, fun q => ?_, fun m ak sk ps => rfl⟩
  show (if endsWithSlash (normalize_path q) then normalize_path q
    else normalize_path q ++ "/") = normalize_path q
  simp [hE q]

/-- Claim C8: the output is independent of input ordering — permuting the
dict's iteration order (with unique keys) and permuting the elements of any
List value leaves the returned query fragment unchanged. -/
theorem order_independence (m p ak sk : String) (ps₁ psm ps₂ : ParamDict)
    (hperm : List.Perm ps₁ psm)
    (hvals : List.Forall₂ EntryEquiv psm ps₂)
    (hnd : (ps₁.map Prod.fst).Nodup) :
    (generate_signature m p ak sk ps₁).1 = (generate_signature m p ak sk ps₂).1 :=
  gen_fst_congr m p ak sk
    (sorted_param_dictSet_congr "access_key_id" (PValue.scalar ak) hperm hvals hnd)

/-- Witness for C8 at a concrete input: swapping the two entries and
permuting a list value leaves the output unchanged. -/
theorem order_independence_witness :
    List.Perm ([("b", PValue.scalar "2"), ("a", PValue.list ["y", "x"])] : ParamDict)
      [("a", PValue.list ["y", "x"]), ("b", PValue.scalar "2")] ∧
    List.Forall₂ EntryEquiv [("a", PValue.list ["y", "x"]), ("b", PValue.scalar "2")]
      [("a", PValue.list ["x", "y"]), ("b", PValue.scalar "2")] ∧
    (([("b", PValue.scalar "2"), ("a", PValue.list ["y", "x"])] : ParamDict).map
      Prod.fst).Nodup ∧
    (generate_signature "GET" "/x/" "AK" "SK"
        [("b", PValue.scalar "2"), ("a", PValue.list ["y", "x"])]).1 =
      (generate_signature "GET" "/x/" "AK" "SK"
        [("a", PValue.list ["x", "y"]), ("b", PValue.scalar "2")]).1 := by
  have hperm : List.Perm ([("b", PValue.scalar "2"), ("a", PValue.list ["y", "x"])] : ParamDict)
      [("a", PValue.list ["y", "x"]), ("b", PValue.scalar "2")] :=
    List.Perm.swap _ _ _
  have hvals : List.Forall₂ EntryEquiv
      [("a", PValue.list ["y", "x"]), ("b", PValue.scalar "2")]
      [("a", PValue.list ["x", "y"]), ("b", PValue.scalar "2")] :=
    List.Forall₂.cons ⟨rfl, List.Perm.swap _ _ _⟩
      (List.Forall₂.cons ⟨rfl, show PValue.scalar "2" = PValue.scalar "2" from rfl⟩
        List.Forall₂.nil)
  exact ⟨hperm, hvals, by decide,
    order_independence "GET" "/x/" "AK" "SK" _ _ _ hperm hvals (by decide)⟩

/-- Claim C9: `generate_signature` is a deterministic pure function of its
five inputs — two invocations on identical inputs yield identical results
(it is modelled as a function, with no state besides the explicit dict). -/
theorem generate_signature_deterministic (m p ak sk : String) (ps : ParamDict)
    (o₁ o₂ : String × ParamDict)
    (h₁ : generate_signature m p ak sk ps = o₁)
    (h₂ : generate_signature m p ak sk ps = o₂) : o₁ = o₂ :=
  h₁.symm.trans h₂

/-- Witness for C9 at a concrete input. -/
theorem generate_signature_deterministic_witness :
    generate_signature "GET" "/x/" "AK" "SK" [] =
      generate_signature "GET" "/x/" "AK" "SK" [] :=
  generate_signature_deterministic "GET" "/x/" "AK" "SK" [] _ _ rfl rfl

/-- Claim C10: a boolean value is serialized with Python's capitalized
rendering — `True` and `False` — both in a single emitted pair and in the
canonical parameter string. -/
theorem boolflag_rendering (k : String) :
    pairParts (k, PValue.boolFlag true) = [k ++ "=" ++ "True"] ∧
    pairParts (k, PValue.boolFlag false) = [k ++ "=" ++ "False"] ∧
    url_param_of (dictSet [("quiet", PValue.boolFlag false),
        ("verbose", PValue.boolFlag true)] "access_key_id" (PValue.scalar "AK")) =
      "access_key_id=AK&quiet=False&verbose=True" :=
  ⟨rfl, rfl, by decide⟩
